import Mathlib

/-!
Verification of the `vector` package (src/collections/vector.go and the
revisions in src/unnamed/part_000): a generic growable vector backed by a
Go slice, with fields `__slice`, `__len`, `__cap`.

Modelling choices:
* A Go slice value is modelled by `GoSlice`: its element list and its
  allocated capacity.  A nil slice is `Option.none` at the `Vector` level;
  `make([]T, 0, c)` yields a non-nil slice with empty elements and cap `c`.
* Methods take the receiver by value (a non-nil pointer); the
  `this == nil` guard branches of the Go code are therefore not taken and
  are recorded in comments.  Go's in-place mutation of `*this` becomes
  returning the updated `Vector`.
* `uint64` lengths and capacities become `Nat`: no operation here can
  overflow 2^64 (slice lengths are bounded far below it); the one
  subtraction `this.__cap - 1` in `Pop` sits in a branch analysed below.
* Go's built-in `append` growth policy is runtime-defined; it is modelled
  by `growCap`: capacity is kept when the result fits, otherwise grows to
  `max (2*cap) needed`.  No theorem below depends on the grown value other
  than it being at least the new length.
* A Go runtime panic (out-of-range slice indexing) is an explicit
  `PopResult.panic` outcome: the process crashes, no successor state.
-/

namespace Vec

/-- A Go slice value: the stored elements and the allocated capacity
(`cap` of the slice).  In Go, `len s ≤ cap s` always holds for real
slices; it is not baked into the type but follows for every slice the
code builds. -/
structure GoSlice (T : Type) where
  elems : List T
  cap : Nat
deriving DecidableEq, Repr

/-- The `Vector[T]` struct of vector.go: `__slice` (none = nil slice),
`__len`, `__cap`. -/
structure Vector (T : Type) where
  slice : Option (GoSlice T)
  len : Nat
  cap : Nat
deriving DecidableEq, Repr

/-- The two error values of the package: `nilValueAccess` and
`indexOutOfBounds` (the string constants at the top of vector.go). -/
inductive VecError where
  | nilValueAccess
  | indexOutOfBounds
deriving DecidableEq, Repr

/-- Go's built-in `copy(dst, src)`: overwrites the first
`min (len dst) (len src)` positions of `dst` with the corresponding
elements of `src`; `dst` keeps its length.  Returns the new contents of
`dst`. -/
def copyGo {T : Type} (dst src : List T) : List T :=
  let n := min dst.length src.length
  src.take n ++ dst.drop n

/-- Capacity after Go's built-in `append` must store `needed` elements in
a slice of capacity `cap`: unchanged when it fits, otherwise the runtime
grows it (modelled as `max (2*cap) needed`). -/
def growCap (needed cap : Nat) : Nat :=
  if needed ≤ cap then cap else max (2 * cap) needed

/-- Go's `append(s, xs...)` on a slice value. -/
def appendGo {T : Type} (s : GoSlice T) (xs : List T) : GoSlice T :=
  { elems := s.elems ++ xs
    cap := growCap (s.elems.length + xs.length) s.cap }

/-- `updateStatus` (vector.go lines 22-29): when the slice is non-nil,
re-derives `__len` and `__cap` from it; otherwise does nothing. -/
def updateStatus {T : Type} (v : Vector T) : Vector T :=
  match v.slice with
  | none => v
  | some s => { v with len := s.elems.length, cap := s.cap }

/-- `WithCapacity[T](capacity)` (vector.go lines 33-39):
`make([]T, 0, capacity)` — a non-nil slice, even for capacity 0. -/
def WithCapacity (T : Type) (capacity : Nat) : Vector T :=
  { slice := some { elems := [], cap := capacity }
    len := 0
    cap := capacity }

/-- `New[T]()` (vector.go lines 44-46). -/
def New (T : Type) : Vector T :=
  WithCapacity T 0

/-- `Len()` (vector.go lines 171-179): 0 for a nil slice; otherwise
`updateStatus` runs first, so the returned value is the slice's length. -/
def Len {T : Type} (v : Vector T) : Nat :=
  match v.slice with
  | none => 0
  | some s => s.elems.length

/-- `Cap()` (vector.go lines 181-189): 0 for a nil slice; otherwise the
slice's capacity (after `updateStatus`). -/
def Cap {T : Type} (v : Vector T) : Nat :=
  match v.slice with
  | none => 0
  | some s => s.cap

/-- `AddCapacity(capacity)` (vector.go lines 50-72).  The `this == nil`
branch (error) is not taken for a value receiver.  Note the local
`safeCopy` starts as a nil slice (length 0, cap 0), so
`copy(safeCopy, this.__slice)` copies zero elements and
`cap(safeCopy) + capacity` is just `capacity`. -/
def AddCapacity {T : Type} (v : Vector T) (capacity : Nat) : Vector T :=
  match v.slice with
  | none =>
    -- `*this = WithCapacity[T](capacity); return nil`
    WithCapacity T capacity
  | some s =>
    -- `var safeCopy []T` is nil: length 0, cap 0
    let safeCopy : GoSlice T := { elems := copyGo [] s.elems, cap := 0 }
    -- `*this = WithCapacity[T](uint64(cap(safeCopy) + int(capacity)))`
    let v1 := WithCapacity T (safeCopy.cap + capacity)
    -- `this.__slice = append(this.__slice, safeCopy...)`
    match v1.slice with
    | none => v1
    | some s1 => updateStatus { v1 with slice := some (appendGo s1 safeCopy.elems) }

/-- `Clear()` (vector.go lines 75-83): `*this = New[T]()` then
`updateStatus`; the prior state is discarded. -/
def Clear {T : Type} (_v : Vector T) : Vector T :=
  updateStatus (New T)

/-- `Strip()` (vector.go lines 87-94): no-op on a nil slice; otherwise
`slices.Clip` (capacity := length) then `updateStatus`. -/
def Strip {T : Type} (v : Vector T) : Vector T :=
  match v.slice with
  | none => v
  | some s => updateStatus { v with slice := some { elems := s.elems, cap := s.elems.length } }

/-- `Reverse()` (vector.go lines 97-105): nil-access error on a nil
slice; otherwise `slices.Reverse` in place, returning nil error.  It does
not call `updateStatus`. -/
def Reverse {T : Type} (v : Vector T) : Except VecError (Vector T) :=
  match v.slice with
  | none => .error .nilValueAccess
  | some s => .ok { v with slice := some { elems := s.elems.reverse, cap := s.cap } }

/-- `Append(element)` (vector.go lines 109-122).  The `this == nil`
error branch is not taken for a value receiver; a nil slice is first
replaced by `New[T]()`; then `append` and `updateStatus`. -/
def Append {T : Type} (v : Vector T) (element : T) : Vector T :=
  let v0 := match v.slice with
    | none => New T
    | some _ => v
  match v0.slice with
  | none => v0
  | some s => updateStatus { v0 with slice := some (appendGo s [element]) }

/-- Outcome of `Pop`: a returned element with the post state, an error
with the post state, or a Go runtime panic (no post state: the process
crashes). -/
inductive PopResult (T : Type) where
  | ok (val : T) (v : Vector T)
  | err (e : VecError) (v : Vector T)
  | panic
deriving DecidableEq, Repr

/-- `Pop(index)` (vector.go lines 126-159).  Guards in source order:
nil slice → nilValueAccess; `this.__len >= index` → indexOutOfBounds
(note: this is the comparison the source writes; it fires for every
`index ≤ __len`).  Past the guards, `this.__slice[index]` is a Go
indexing operation that panics unless `index < len(slice)`.  On the
non-panicking path the code builds `safeCopy = left ++ right` with
capacity `this.__cap - 1` (uint64 subtraction; the branch requires
`index > __len` so for in-sync vectors it is never evaluated), calls
`Clear`, then `copy(this.__slice, safeCopy)` — whose destination is the
freshly cleared empty slice, so nothing is copied back. -/
def Pop {T : Type} (v : Vector T) (index : Nat) : PopResult T :=
  match v.slice with
  | none => .err .nilValueAccess v
  | some s =>
    if v.len ≥ index then
      .err .indexOutOfBounds v
    else if h : index < s.elems.length then
      -- `defaultValue = this.__slice[index]`
      let defaultValue := s.elems.get ⟨index, h⟩
      -- `leftSide = this.__slice[:index]`, `rightSide = this.__slice[index+1:]`
      let leftSide := s.elems.take index
      let rightSide := s.elems.drop (index + 1)
      -- `safeCopy = make([]T, 0, this.__cap-1)` then two appends
      let safeCopy := appendGo (appendGo { elems := [], cap := v.cap - 1 } leftSide) rightSide
      -- `this.Clear()`
      let v1 := Clear v
      -- `copy(this.__slice, safeCopy)` into the cleared (empty) slice
      match v1.slice with
      | none => .ok defaultValue (updateStatus v1)
      | some s1 =>
        let s2 : GoSlice T := { elems := copyGo s1.elems safeCopy.elems, cap := s1.cap }
        .ok defaultValue (updateStatus { v1 with slice := some s2 })
    else
      -- `this.__slice[index]` with `index ≥ len(slice)`: runtime panic
      .panic

/-- `Remove(index)` (vector.go lines 161-169): wraps `Pop`, discarding
the element; on error it returns with no further action; a panic in
`Pop` propagates (`none`). -/
def Remove {T : Type} (v : Vector T) (index : Nat) : Option (Vector T) :=
  match Pop v index with
  | .ok _ v1 => some (updateStatus v1)
  | .err _ v1 => some v1
  | .panic => none

/-- The elements logically held by a vector (empty for a nil slice). -/
def elems {T : Type} (v : Vector T) : List T :=
  match v.slice with
  | none => []
  | some s => s.elems

/-- States reachable through the public constructors and the
non-crashing completions of the public operations. -/
inductive Reachable (T : Type) : Vector T → Prop where
  | new : Reachable T (New T)
  | withCapacity (c : Nat) : Reachable T (WithCapacity T c)
  | addCapacity {v : Vector T} (c : Nat) :
      Reachable T v → Reachable T (AddCapacity v c)
  | append {v : Vector T} (x : T) :
      Reachable T v → Reachable T (Append v x)
  | clear {v : Vector T} : Reachable T v → Reachable T (Clear v)
  | strip {v : Vector T} : Reachable T v → Reachable T (Strip v)
  | reverse {v v1 : Vector T} :
      Reachable T v → Reverse v = .ok v1 → Reachable T v1
  | popOk {v v1 : Vector T} {i : Nat} {x : T} :
      Reachable T v → Pop v i = .ok x v1 → Reachable T v1
  | popErr {v v1 : Vector T} {i : Nat} {e : VecError} :
      Reachable T v → Pop v i = .err e v1 → Reachable T v1
  | remove {v v1 : Vector T} {i : Nat} :
      Reachable T v → Remove v i = some v1 → Reachable T v1

/-- The data-model invariant: backing storage present, `__len` equal to
the number of stored elements, `__cap` equal to the allocated size, and
length bounded by capacity. -/
def Inv {T : Type} (v : Vector T) : Prop :=
  match v.slice with
  | none => False
  | some s => v.len = s.elems.length ∧ v.cap = s.cap ∧ s.elems.length ≤ s.cap

/-- `Append` applied to each element of `xs` in order, starting from `v`. -/
def appendAll {T : Type} (v : Vector T) (xs : List T) : Vector T :=
  xs.foldl Append v

/-! ### Helper lemmas -/

theorem copyGo_nil_dst {T : Type} (src : List T) : copyGo [] src = [] := by
  simp [copyGo]

theorem growCap_ge (needed cap : Nat) : needed ≤ growCap needed cap := by
  unfold growCap
  split
  · assumption
  · exact le_max_right _ _

theorem inv_withCapacity {T : Type} (c : Nat) : Inv (WithCapacity T c) :=
  ⟨rfl, rfl, Nat.zero_le c⟩

theorem inv_new (T : Type) : Inv (New T) :=
  inv_withCapacity 0

theorem inv_clear {T : Type} (v : Vector T) : Inv (Clear v) :=
  ⟨rfl, rfl, Nat.le_refl 0⟩

theorem inv_append {T : Type} (v : Vector T) (x : T) : Inv (Append v x) := by
  obtain ⟨sl, ln, cp⟩ := v
  cases sl with
  | none =>
      exact ⟨rfl, rfl, by simp [appendGo, growCap]⟩
  | some s =>
      refine ⟨rfl, rfl, ?_⟩
      simpa [appendGo] using growCap_ge (s.elems.length + 1) s.cap

theorem inv_addCapacity {T : Type} (v : Vector T) (c : Nat) : Inv (AddCapacity v c) := by
  obtain ⟨sl, ln, cp⟩ := v
  cases sl with
  | none => exact inv_withCapacity c
  | some s =>
      refine ⟨rfl, rfl, ?_⟩
      simp [appendGo, growCap, copyGo]

theorem inv_strip {T : Type} (v : Vector T) (h : Inv v) : Inv (Strip v) := by
  obtain ⟨sl, ln, cp⟩ := v
  cases sl with
  | none => exact h.elim
  | some s => exact ⟨rfl, rfl, Nat.le_refl _⟩

theorem inv_reverse {T : Type} (v v1 : Vector T) (h : Inv v)
    (heq : Reverse v = .ok v1) : Inv v1 := by
  obtain ⟨sl, ln, cp⟩ := v
  cases sl with
  | none => exact h.elim
  | some s =>
      obtain ⟨h1, h2, h3⟩ := h
      cases heq
      exact ⟨by simpa using h1, h2, by simpa using h3⟩

/-- Both error exits of `Pop` return the receiver unchanged. -/
theorem pop_err_state {T : Type} (v v1 : Vector T) (i : Nat) (e : VecError)
    (heq : Pop v i = .err e v1) : v1 = v := by
  obtain ⟨sl, ln, cp⟩ := v
  cases sl with
  | none =>
      simp only [Pop] at heq
      cases heq
      rfl
  | some s =>
      simp only [Pop] at heq
      split at heq
      · cases heq; rfl
      · split at heq <;> cases heq

/-- On a vector whose `__len` field is in sync with its slice (every
reachable vector is), `Pop` never reaches its successful return: indices
up to `__len` take the out-of-bounds error exit and larger indices panic
at the slice indexing. -/
theorem pop_inv_spec {T : Type} (v : Vector T) (i : Nat) (hinv : Inv v) :
    (i ≤ v.len → Pop v i = .err .indexOutOfBounds v) ∧
    ∀ (x : T) (v1 : Vector T), Pop v i ≠ .ok x v1 := by
  obtain ⟨sl, ln, cp⟩ := v
  cases sl with
  | none => exact hinv.elim
  | some s =>
      obtain ⟨h1, _h2, _h3⟩ := hinv
      constructor
      · intro hle
        simp only [Pop]
        rw [if_pos hle]
      · intro x v1 heq
        simp only [Pop] at heq
        split at heq
        · cases heq
        · next hgt =>
            have hlt : s.elems.length < i := by
              simp only at h1
              simpa [h1] using Nat.lt_of_not_ge hgt
            rw [dif_neg (Nat.not_lt.mpr (Nat.le_of_lt hlt))] at heq
            cases heq

theorem inv_pop_err {T : Type} (v v1 : Vector T) (i : Nat) (e : VecError)
    (h : Inv v) (heq : Pop v i = .err e v1) : Inv v1 := by
  rw [pop_err_state v v1 i e heq]
  exact h

theorem inv_remove {T : Type} (v v1 : Vector T) (i : Nat)
    (h : Inv v) (heq : Remove v i = some v1) : Inv v1 := by
  unfold Remove at heq
  cases hp : Pop v i with
  | ok x v2 =>
      exact ((pop_inv_spec v i h).2 x v2 hp).elim
  | err e v2 =>
      rw [hp] at heq
      cases heq
      exact inv_pop_err _ _ _ _ h hp
  | panic =>
      rw [hp] at heq
      cases heq

/-- Every vector reachable through the public constructors and
operations satisfies the data-model invariant. -/
theorem reachable_inv {T : Type} {v : Vector T} (h : Reachable T v) : Inv v := by
  induction h with
  | new => exact inv_new T
  | withCapacity c => exact inv_withCapacity c
  | addCapacity c _ _ => exact inv_addCapacity _ c
  | append x _ _ => exact inv_append _ x
  | clear _ _ => exact inv_clear _
  | strip _ ih => exact inv_strip _ ih
  | reverse _ heq ih => exact inv_reverse _ _ ih heq
  | popOk _ heq ih => exact ((pop_inv_spec _ _ ih).2 _ _ heq).elim
  | popErr _ heq ih => exact inv_pop_err _ _ _ _ ih heq
  | remove _ heq ih => exact inv_remove _ _ _ ih heq

/-- `elems` of an `Append` is the old contents with the element at the
back, whether or not the slice was nil. -/
theorem elems_append {T : Type} (v : Vector T) (x : T) :
    elems (Append v x) = elems v ++ [x] := by
  obtain ⟨sl, ln, cp⟩ := v
  cases sl with
  | none => rfl
  | some s => rfl

theorem elems_appendAll {T : Type} (xs : List T) (v : Vector T) :
    elems (appendAll v xs) = elems v ++ xs := by
  induction xs generalizing v with
  | nil => simp [appendAll]
  | cons y ys ih =>
      have : appendAll v (y :: ys) = appendAll (Append v y) ys := rfl
      rw [this, ih, elems_append]
      simp

theorem len_eq_elems_length {T : Type} (v : Vector T) :
    Len v = (elems v).length := by
  obtain ⟨sl, ln, cp⟩ := v
  cases sl with
  | none => rfl
  | some s => rfl

theorem reverse_short {T : Type} (l : List T) (h : l.length ≤ 1) :
    l.reverse = l := by
  match l with
  | [] => rfl
  | [a] => rfl
  | a :: b :: t => simp at h

/-! ### Claim theorems -/

/-- C1: refuted at a concrete input (code bug).  On the vector
`[10, 20, 30]`, index 1 lies in `[0, length)`, so the claim (and Pop's
own doc comment) requires Pop to return 20, leave `[10, 30]` and length
2.  The code's inverted bound check `this.__len >= index` fires for every
in-range index, so Pop returns the out-of-bounds error and changes
nothing. -/
theorem c1_pop_valid_index_errors :
    Len (appendAll (New Nat) [10, 20, 30]) = 3 ∧
    elems (appendAll (New Nat) [10, 20, 30]) = [10, 20, 30] ∧
    Pop (appendAll (New Nat) [10, 20, 30]) 1
      = .err .indexOutOfBounds (appendAll (New Nat) [10, 20, 30]) := by
  decide

/-- C2: refuted at a concrete input (code bug).  On a vector holding
`[10]` with capacity 1, the claim requires `AddCapacity 2` to preserve
`[10]` and reach capacity 3.  The code copies into the nil local
`safeCopy` (copying nothing) and rebuilds from `cap(safeCopy) + 2 = 2`,
so the result is an empty vector of capacity 2. -/
theorem c2_addCapacity_drops_elements :
    elems (Append (New Nat) 10) = [10] ∧
    Cap (Append (New Nat) 10) = 1 ∧
    AddCapacity (Append (New Nat) 10) 2
      = { slice := some { elems := [], cap := 2 }, len := 0, cap := 2 } := by
  decide

/-- C3: refuted at a concrete input (code bug).  On a vector of length 1,
index 2 satisfies `index ≥ length`, so the claim (and Pop's doc comment)
requires the out-of-bounds error with no mutation.  The inverted guard
`this.__len >= index` is false for `index > length`, so control reaches
`this.__slice[index]`, a Go runtime panic. -/
theorem c3_pop_above_length_panics :
    Len (Append (New Nat) 10) = 1 ∧
    Pop (Append (New Nat) 10) 2 = .panic := by
  decide

/-- C4: refuted at a concrete input (code bug).  `Pop` on the vector
`[1, 2]` with index 5 — a documented input, which the spec says must
yield an explicit error value — crashes with a Go index-out-of-range
runtime panic instead. -/
theorem c4_pop_documented_input_panics :
    Pop (appendAll (New Nat) [1, 2]) 5 = .panic := by
  decide

/-- C5: confirmed.  Starting from a freshly constructed vector, a
sequence of `n` Appends (each of which succeeds — the Go error exit of
`Append` is only for a nil pointer receiver) gives `Len() = n` and
exactly the appended elements in append order. -/
theorem c5_append_sequence (xs : List Nat) :
    Len (appendAll (New Nat) xs) = xs.length ∧
    elems (appendAll (New Nat) xs) = xs := by
  have h0 : elems (New Nat) = [] := rfl
  have h : elems (appendAll (New Nat) xs) = xs := by
    rw [elems_appendAll, h0]
    rfl
  exact ⟨by rw [len_eq_elems_length, h], h⟩

/-- C6: confirmed.  Every vector reachable through the public
constructors and operations has backing storage, its `__len` field equals
the number of elements stored in it, its `__cap` field equals the
allocated size, and `0 ≤ length ≤ capacity` (the lower bound is inherent
to `Nat`, mirroring `uint64`). -/
theorem c6_data_model_invariant {T : Type} (v : Vector T) (h : Reachable T v) :
    ∃ s : GoSlice T, v.slice = some s ∧ v.len = s.elems.length ∧
      v.cap = s.cap ∧ v.len ≤ v.cap := by
  have hinv := reachable_inv h
  obtain ⟨sl, ln, cp⟩ := v
  cases sl with
  | none => exact hinv.elim
  | some s =>
      obtain ⟨h1, h2, h3⟩ := hinv
      refine ⟨s, rfl, h1, h2, ?_⟩
      show ln ≤ cp
      have h1' : ln = s.elems.length := h1
      have h2' : cp = s.cap := h2
      rw [h1', h2']
      exact h3

/-- C6 witness: the invariant instantiated at the freshly constructed
vector. -/
theorem c6_data_model_invariant_witness :
    ∃ s : GoSlice Nat, (New Nat).slice = some s ∧ (New Nat).len = s.elems.length ∧
      (New Nat).cap = s.cap ∧ (New Nat).len ≤ (New Nat).cap :=
  c6_data_model_invariant (New Nat) Reachable.new

/-- C7: confirmed.  `Strip` never changes `Len()`; afterwards
`Cap() = Len()` (when the backing slice is nil both lengths are 0, so the
equalities hold trivially); and on a vector with no backing storage it is
a no-op (the absent-receiver case is the untaken `this == nil` guard). -/
theorem c7_strip_len_cap {T : Type} (v : Vector T) :
    Len (Strip v) = Len v ∧ Cap (Strip v) = Len (Strip v) ∧
    (v.slice = none → Strip v = v) := by
  obtain ⟨sl, ln, cp⟩ := v
  cases sl with
  | none => exact ⟨rfl, rfl, fun _ => rfl⟩
  | some s => exact ⟨rfl, rfl, fun hc => Option.noConfusion hc⟩

/-- C7 witness: the no-op clause discharged at the zero-value vector. -/
theorem c7_strip_len_cap_witness :
    Strip ({ slice := none, len := 0, cap := 0 } : Vector Nat)
      = { slice := none, len := 0, cap := 0 } :=
  (c7_strip_len_cap { slice := none, len := 0, cap := 0 }).2.2 rfl

/-- C8: confirmed.  With backing storage present, `Reverse` succeeds,
applying it twice restores the original element order, and on vectors of
length 0 or 1 a single `Reverse` already leaves the elements unchanged. -/
theorem c8_reverse_involution {T : Type} (v : Vector T) (s : GoSlice T)
    (hs : v.slice = some s) :
    ∃ v1 v2, Reverse v = .ok v1 ∧ Reverse v1 = .ok v2 ∧ elems v2 = elems v ∧
      ((elems v).length ≤ 1 → elems v1 = elems v) := by
  obtain ⟨sl, ln, cp⟩ := v
  cases hs
  refine ⟨_, _, rfl, rfl, ?_, ?_⟩
  · show s.elems.reverse.reverse = s.elems
    exact List.reverse_reverse s.elems
  · intro hlen
    show s.elems.reverse = s.elems
    exact reverse_short s.elems hlen

/-- C8 witness: the double reversal instantiated at the one-element
vector `[7]`. -/
theorem c8_reverse_involution_witness :
    ∃ v1 v2, Reverse (Append (New Nat) 7) = .ok v1 ∧ Reverse v1 = .ok v2 ∧
      elems v2 = elems (Append (New Nat) 7) ∧
      ((elems (Append (New Nat) 7)).length ≤ 1 →
        elems v1 = elems (Append (New Nat) 7)) :=
  c8_reverse_involution (Append (New Nat) 7) { elems := [7], cap := 1 } rfl

/-- C9: confirmed.  On any vector whose fields satisfy the data-model
invariant (all reachable vectors do), every index `i ≤ length` makes
`Pop` return the out-of-bounds error with the state unchanged, and no
index at all makes `Pop` return an element without error: the non-error
branch requires `i > length` and then panics at the slice indexing. -/
theorem c9_pop_never_returns_element {T : Type} (v : Vector T) (i : Nat)
    (hinv : Inv v) :
    (i ≤ v.len → Pop v i = .err .indexOutOfBounds v) ∧
    ∀ (x : T) (v1 : Vector T), Pop v i ≠ .ok x v1 :=
  pop_inv_spec v i hinv

/-- C9 witness: instantiated at the vector `[5]` with index 0. -/
theorem c9_pop_never_returns_element_witness :
    (0 ≤ (Append (New Nat) 5).len →
      Pop (Append (New Nat) 5) 0
        = .err .indexOutOfBounds (Append (New Nat) 5)) ∧
    ∀ (x : Nat) (v1 : Vector Nat), Pop (Append (New Nat) 5) 0 ≠ .ok x v1 :=
  c9_pop_never_returns_element (Append (New Nat) 5) 0 ⟨rfl, rfl, Nat.le_refl 1⟩

/-- C10: confirmed.  `New` and `WithCapacity c` always produce a non-nil
backing slice (Go's `make([]T, 0, c)` is non-nil even for `c = 0`), every
reachable — i.e. actually constructed — vector has one, so `Reverse`
succeeds on it; and `Reverse` returns the nil-access error only on a
vector whose slice is nil, which no constructor or operation ever
produces: only the zero value of the struct. -/
theorem c10_reverse_nil_access_only_zero_value {T : Type} (c : Nat) (v : Vector T) :
    (WithCapacity T c).slice ≠ none ∧ (New T).slice ≠ none ∧
    (Reachable T v → ∃ v1, Reverse v = .ok v1) ∧
    (∀ e, Reverse v = .error e → v.slice = none ∧ e = .nilValueAccess) := by
  refine ⟨fun hc => Option.noConfusion hc, fun hc => Option.noConfusion hc, ?_, ?_⟩
  · intro hr
    have hinv := reachable_inv hr
    obtain ⟨sl, ln, cp⟩ := v
    cases sl with
    | none => exact hinv.elim
    | some s => exact ⟨_, rfl⟩
  · intro e heq
    obtain ⟨sl, ln, cp⟩ := v
    cases sl with
    | none =>
        simp only [Reverse] at heq
        cases heq
        exact ⟨rfl, rfl⟩
    | some s =>
        simp only [Reverse] at heq
        cases heq

/-- C10 witness: `Reverse` succeeds on the freshly constructed empty
vector. -/
theorem c10_reverse_nil_access_only_zero_value_witness :
    ∃ v1, Reverse (New Nat) = .ok v1 :=
  (c10_reverse_nil_access_only_zero_value 0 (New Nat)).2.2.1 Reachable.new

end Vec
